import Mathlib

/-!
Verification of the yle-dual-sub translation pipeline.

This file gives a shallow embedding, in Lean 4, of the core translation
pipeline of the yle-dual-sub browser extension:

* the key normalizer `toTranslationKey` (src/contentscript.js),
* the in-memory success/error caches and the `TranslationQueue`
  (`addToQueue` / `processQueue`, src/contentscript.js),
* the `sendTranslationTextEvent` listener (src/contentscript.js),
* the retry controller `translateTextsWithErrorHandling` and the
  status-to-message table `getErrorMessageFromStatus` (src/background.js),
* the eviction sweep `cleanupOldMovieData` over the durable cache
  (src/database.js),

together with theorems settling the stated properties of those components.

JavaScript strings are modelled as `List Char` / `String`; JS `Map` objects
are modelled as insertion-ordered association lists; the nondeterministic
environment (translation responses, jitter, per-record store failures) is
modelled by explicit oracle functions.
-/

namespace YleDualSub

/-! ### Key normalizer (src/contentscript.js, `toTranslationKey`)

`toTranslationKey` is
`text.replace(/\n/g, ' ').replace(/\s+/g, ' ').trim().toLowerCase()`.
-/

/-- The set of code points matched by the JavaScript regular-expression class
`\s` (which is also exactly the set stripped by `String.prototype.trim`):
space, tab, LF, VT, FF, CR, NBSP, U+1680, U+2000–U+200A, LS, PS, NNBSP,
MMSP, ideographic space and the BOM. -/
def isWsCode (n : Nat) : Bool :=
  n = 32 || n = 9 || n = 10 || n = 11 || n = 12 || n = 13 ||
  n = 160 || n = 5760 || (8192 ≤ n && n ≤ 8202) ||
  n = 8232 || n = 8233 || n = 8239 || n = 8287 || n = 12288 || n = 65279

/-- JavaScript whitespace test on characters (`\s` / `trim`). -/
def isJsWhitespace (c : Char) : Bool :=
  isWsCode c.toNat

/-- Models `String.prototype.toLowerCase`, restricted to the Basic Latin and
Latin-1 Supplement blocks (the alphabet relevant to the extension: Finnish
source text and language codes).  `A`–`Z` and `À`–`Þ` (except `×`) map to
their lowercase forms 32 code points higher; every other character is
unchanged. -/
def jsToLowerChar (c : Char) : Char :=
  let n := c.toNat
  if 65 ≤ n && n ≤ 90 then Char.ofNat (n + 32)
  else if 192 ≤ n && n ≤ 222 && n ≠ 215 then Char.ofNat (n + 32)
  else c

/-- One character of `replace(/\n/g, ' ')`. -/
def replaceNewlineChar (c : Char) : Char :=
  if c = '\n' then ' ' else c

/-- Worker for `replace(/\s+/g, ' ')`.  The flag records whether the
previous character belonged to a whitespace run (in which case further
whitespace characters of the same run emit nothing). -/
def collapseWsAux : Bool → List Char → List Char
  | _, [] => []
  | inRun, c :: cs =>
    if isJsWhitespace c then
      if inRun then collapseWsAux true cs
      else ' ' :: collapseWsAux true cs
    else c :: collapseWsAux false cs

/-- `replace(/\s+/g, ' ')`: every maximal run of JS whitespace characters is
replaced by a single space. -/
def collapseWs (l : List Char) : List Char :=
  collapseWsAux false l

/-- `String.prototype.trim`: remove leading and trailing JS whitespace. -/
def jsTrim (l : List Char) : List Char :=
  (l.dropWhile isJsWhitespace).rdropWhile isJsWhitespace

/-- The character-list form of `toTranslationKey`: replace newlines by
spaces, collapse whitespace runs to single spaces, trim, lower-case. -/
def normalizeChars (l : List Char) : List Char :=
  (jsTrim (collapseWs (l.map replaceNewlineChar))).map jsToLowerChar

/-- `toTranslationKey` from src/contentscript.js:
`rawSubtitleFinnishText.replace(/\n/g, ' ').replace(/\s+/g, ' ').trim().toLowerCase()`. -/
def toTranslationKey (s : String) : String :=
  ⟨normalizeChars s.data⟩

example : toTranslationKey "  Hei\n MAAILMA  " = "hei maailma" := by decide
example : toTranslationKey "Moi" = "moi" := by decide
example : toTranslationKey " ÄITI Å " = "äiti å" := by decide

/-! ### Lemmas about the normalizer, towards idempotence (C9) -/

theorem char_toNat_ofNat {n : Nat} (h : n < 55296) : (Char.ofNat n).toNat = n := by
  have hv : n.isValidChar := Or.inl h
  simp only [Char.ofNat, hv, dif_pos, Char.ofNatAux, Char.toNat, UInt32.toNat,
    BitVec.toNat_ofNatLt]

theorem isWsCode_eq_false_of_letter {n : Nat}
    (h : (65 ≤ n ∧ n ≤ 122) ∨ (192 ≤ n ∧ n ≤ 254)) : isWsCode n = false := by
  simp only [isWsCode, Bool.or_eq_false_iff, decide_eq_false_iff_not, Bool.and_eq_false_iff,
    not_le]
  omega

theorem jsToLowerChar_toNat_shift {c : Char}
    (h : (65 ≤ c.toNat ∧ c.toNat ≤ 90) ∨ (192 ≤ c.toNat ∧ c.toNat ≤ 222 ∧ c.toNat ≠ 215)) :
    (jsToLowerChar c).toNat = c.toNat + 32 := by
  rcases h with ⟨h1, h2⟩ | ⟨h1, h2, h3⟩
  · simp only [jsToLowerChar]
    rw [if_pos (by simp [h1, h2])]
    exact char_toNat_ofNat (by omega)
  · simp only [jsToLowerChar]
    rw [if_neg (by simp; omega), if_pos (by simp [h1, h2, h3])]
    exact char_toNat_ofNat (by omega)

theorem jsToLowerChar_eq_self {c : Char}
    (h : ¬((65 ≤ c.toNat ∧ c.toNat ≤ 90) ∨
        (192 ≤ c.toNat ∧ c.toNat ≤ 222 ∧ c.toNat ≠ 215))) :
    jsToLowerChar c = c := by
  push_neg at h
  obtain ⟨h1, h2⟩ := h
  simp only [jsToLowerChar]
  rw [if_neg (by simp; omega), if_neg (by simp; omega)]

/-- Lower-casing does not change whether a character is JS whitespace. -/
theorem isJsWhitespace_jsToLowerChar (c : Char) :
    isJsWhitespace (jsToLowerChar c) = isJsWhitespace c := by
  by_cases h : (65 ≤ c.toNat ∧ c.toNat ≤ 90) ∨
      (192 ≤ c.toNat ∧ c.toNat ≤ 222 ∧ c.toNat ≠ 215)
  · have hs := jsToLowerChar_toNat_shift h
    simp only [isJsWhitespace, hs]
    rw [isWsCode_eq_false_of_letter (by omega), isWsCode_eq_false_of_letter (by omega)]
  · rw [jsToLowerChar_eq_self h]

theorem jsToLowerChar_idem (c : Char) :
    jsToLowerChar (jsToLowerChar c) = jsToLowerChar c := by
  by_cases h : (65 ≤ c.toNat ∧ c.toNat ≤ 90) ∨
      (192 ≤ c.toNat ∧ c.toNat ≤ 222 ∧ c.toNat ≠ 215)
  · have hs := jsToLowerChar_toNat_shift h
    exact jsToLowerChar_eq_self (by rw [hs]; omega)
  · rw [jsToLowerChar_eq_self h, jsToLowerChar_eq_self h]

theorem jsToLowerChar_space : jsToLowerChar ' ' = ' ' := by decide

theorem isJsWhitespace_space : isJsWhitespace ' ' = true := by decide

theorem isJsWhitespace_newline : isJsWhitespace '\n' = true := by decide

/-- Every whitespace character produced by `collapseWsAux` is a plain space. -/
theorem mem_collapseWsAux_ws :
    ∀ (l : List Char) (b : Bool) (c : Char), c ∈ collapseWsAux b l →
      isJsWhitespace c = true → c = ' ' := by
  intro l
  induction l with
  | nil => intro b c hc; cases hc
  | cons a t ih =>
    intro b c hc hws
    cases ha : isJsWhitespace a with
    | true =>
      cases b with
      | true =>
        simp [collapseWsAux, ha] at hc
        exact ih true c hc hws
      | false =>
        simp [collapseWsAux, ha] at hc
        rcases hc with h | h
        · exact h
        · exact ih true c h hws
    | false =>
      simp [collapseWsAux, ha] at hc
      rcases hc with h | h
      · rw [h] at hws; rw [hws] at ha; cases ha
      · exact ih false c h hws

/-- Adjacent-pair relation: no two consecutive whitespace characters. -/
def wsApart (a b : Char) : Prop :=
  ¬(isJsWhitespace a = true ∧ isJsWhitespace b = true)

theorem head_collapseWsAux_true :
    ∀ (l : List Char) (a : Char), (collapseWsAux true l).head? = some a →
      isJsWhitespace a = false := by
  intro l
  induction l with
  | nil => intro a ha; cases ha
  | cons c t ih =>
    intro a ha
    cases hc : isJsWhitespace c with
    | true =>
      simp [collapseWsAux, hc] at ha
      exact ih a ha
    | false =>
      simp [collapseWsAux, hc] at ha
      rw [← ha]
      exact hc

theorem chain'_collapseWsAux :
    ∀ (l : List Char) (b : Bool), List.Chain' wsApart (collapseWsAux b l) := by
  intro l
  induction l with
  | nil => intro b; simp [collapseWsAux]
  | cons c t ih =>
    intro b
    cases hc : isJsWhitespace c with
    | true =>
      cases b with
      | true => simpa [collapseWsAux, hc] using ih true
      | false =>
        simp only [collapseWsAux, hc, if_true, Bool.false_eq_true, if_false]
        rw [List.chain'_cons']
        refine ⟨?_, ih true⟩
        intro y hy
        have hws := head_collapseWsAux_true t y hy
        intro hcon
        rw [hws] at hcon
        exact absurd hcon.2 (by simp)
    | false =>
      simp only [collapseWsAux, hc, Bool.false_eq_true, if_false]
      rw [List.chain'_cons']
      refine ⟨?_, ih false⟩
      intro y _
      intro hcon
      rw [hc] at hcon
      exact absurd hcon.1 (by simp)

theorem collapseWsAux_true_eq_false {l : List Char}
    (h : ∀ y ∈ l.head?, isJsWhitespace y = false) :
    collapseWsAux true l = collapseWsAux false l := by
  cases l with
  | nil => rfl
  | cons a t =>
    have ha : isJsWhitespace a = false := h a (by simp)
    simp [collapseWsAux, ha]

/-- A list in which every whitespace character is a single isolated space is a
fixed point of whitespace collapsing. -/
theorem collapseWsAux_eq_self :
    ∀ (l : List Char), (∀ c ∈ l, isJsWhitespace c = true → c = ' ') →
      List.Chain' wsApart l → collapseWsAux false l = l := by
  intro l
  induction l with
  | nil => intro _ _; rfl
  | cons a t ih =>
    intro hall hch
    rw [List.chain'_cons'] at hch
    have htail : collapseWsAux false t = t :=
      ih (fun c hc => hall c (List.mem_cons_of_mem a hc)) hch.2
    cases ha : isJsWhitespace a with
    | true =>
      have haeq : a = ' ' := hall a (List.mem_cons_self a t) ha
      have hhead : ∀ y ∈ t.head?, isJsWhitespace y = false := by
        intro y hy
        have hy2 := hch.1 y hy
        unfold wsApart at hy2
        by_contra hcon
        exact hy2 ⟨ha, by simpa using hcon⟩
      simp only [collapseWsAux, ha, if_true]
      rw [collapseWsAux_true_eq_false hhead, htail, haeq]
      simp
    | false =>
      simp only [collapseWsAux, ha, Bool.false_eq_true, if_false]
      rw [htail]

theorem dropWhile_eq_self_of_prefix {p : Char → Bool} {l1 l2 : List Char}
    (hpre : l1 <+: l2) (hself : l2.dropWhile p = l2) : l1.dropWhile p = l1 := by
  cases l1 with
  | nil => rfl
  | cons a t =>
    obtain ⟨s, hs⟩ := hpre
    have hpa : ¬ p a = true := by
      intro hpa
      rw [← hs, List.cons_append, List.dropWhile_cons_of_pos hpa] at hself
      have hlen := (List.dropWhile_suffix (l := t ++ s) p).sublist.length_le
      rw [hself] at hlen
      simp at hlen
    exact List.dropWhile_cons_of_neg hpa

theorem dropWhile_jsTrim (l : List Char) :
    (jsTrim l).dropWhile isJsWhitespace = jsTrim l :=
  dropWhile_eq_self_of_prefix (List.rdropWhile_prefix _ _)
    (List.dropWhile_idempotent _ _)

theorem jsTrim_idem (l : List Char) : jsTrim (jsTrim l) = jsTrim l := by
  show ((jsTrim l).dropWhile isJsWhitespace).rdropWhile isJsWhitespace = jsTrim l
  rw [dropWhile_jsTrim]
  exact List.rdropWhile_idempotent isJsWhitespace (l.dropWhile isJsWhitespace)

theorem jsTrim_within (l : List Char) : jsTrim l <:+: l :=
  (List.rdropWhile_prefix _ _).isInfix.trans (List.dropWhile_suffix _).isInfix

/-- Collapsing commutes with character-wise lower-casing, because
lower-casing fixes the space character and preserves whitespace-ness. -/
theorem collapseWsAux_map_jsToLowerChar :
    ∀ (l : List Char) (b : Bool),
      collapseWsAux b (l.map jsToLowerChar) = (collapseWsAux b l).map jsToLowerChar := by
  intro l
  induction l with
  | nil => intro b; rfl
  | cons c t ih =>
    intro b
    cases hc : isJsWhitespace c with
    | true =>
      have hc2 : isJsWhitespace (jsToLowerChar c) = true := by
        rw [isJsWhitespace_jsToLowerChar]; exact hc
      cases b with
      | true => simp [collapseWsAux, hc, hc2, ih true]
      | false => simp [collapseWsAux, hc, hc2, ih true, jsToLowerChar_space]
    | false =>
      have hc2 : isJsWhitespace (jsToLowerChar c) = false := by
        rw [isJsWhitespace_jsToLowerChar]; exact hc
      simp [collapseWsAux, hc, hc2, ih false]

theorem dropWhile_ws_map_jsToLowerChar (l : List Char) :
    (l.map jsToLowerChar).dropWhile isJsWhitespace =
      (l.dropWhile isJsWhitespace).map jsToLowerChar := by
  have hp : (isJsWhitespace ∘ jsToLowerChar) = isJsWhitespace := by
    funext c
    exact isJsWhitespace_jsToLowerChar c
  rw [List.dropWhile_map, hp]

theorem jsTrim_map_jsToLowerChar (l : List Char) :
    jsTrim (l.map jsToLowerChar) = (jsTrim l).map jsToLowerChar := by
  unfold jsTrim List.rdropWhile
  rw [dropWhile_ws_map_jsToLowerChar, ← List.map_reverse, List.dropWhile_map]
  have hp : (isJsWhitespace ∘ jsToLowerChar) = isJsWhitespace := by
    funext c
    exact isJsWhitespace_jsToLowerChar c
  rw [hp, ← List.map_reverse]

/-- C9, core list-level statement: the normalizer is idempotent. -/
theorem normalizeChars_idem (l : List Char) :
    normalizeChars (normalizeChars l) = normalizeChars l := by
  unfold normalizeChars
  set v := collapseWs (l.map replaceNewlineChar) with hv
  set t := jsTrim v with ht
  -- characters of `t` that are whitespace are single spaces
  have htmem : ∀ c ∈ t, isJsWhitespace c = true → c = ' ' := by
    intro c hc hws
    exact mem_collapseWsAux_ws _ false c ((jsTrim_within v).subset hc) hws
  -- step 1: the re-applied newline replacement is the identity
  have hstep1 : (t.map jsToLowerChar).map replaceNewlineChar = t.map jsToLowerChar := by
    rw [List.map_map]
    apply List.map_congr_left
    intro c hc
    show replaceNewlineChar (jsToLowerChar c) = jsToLowerChar c
    unfold replaceNewlineChar
    rw [if_neg]
    intro hnl
    have hwsl : isJsWhitespace (jsToLowerChar c) = true := by
      rw [hnl]; exact isJsWhitespace_newline
    rw [isJsWhitespace_jsToLowerChar] at hwsl
    have hceq : c = ' ' := htmem c hc hwsl
    rw [hceq, jsToLowerChar_space] at hnl
    exact absurd hnl (by decide)
  -- step 2: `t` is a fixed point of collapsing
  have hstep2 : collapseWs t = t := by
    apply collapseWsAux_eq_self t htmem
    exact List.Chain'.infix (chain'_collapseWsAux (l.map replaceNewlineChar) false)
      (jsTrim_within v)
  rw [hstep1]
  show (jsTrim (collapseWs (t.map jsToLowerChar))).map jsToLowerChar = t.map jsToLowerChar
  unfold collapseWs
  rw [collapseWsAux_map_jsToLowerChar]
  show (jsTrim ((collapseWs t).map jsToLowerChar)).map jsToLowerChar = t.map jsToLowerChar
  rw [hstep2, jsTrim_map_jsToLowerChar]
  have hstep3 : jsTrim t = t := by rw [ht]; exact jsTrim_idem v
  rw [hstep3, List.map_map]
  apply List.map_congr_left
  intro c _
  exact jsToLowerChar_idem c

/-- **C9** (confirmed). Idempotent normalization: for every text `T`,
`normalize(normalize(T)) = normalize(T)`, where `normalize` is
`toTranslationKey` from src/contentscript.js (replace newlines with spaces,
collapse whitespace runs, trim, lower-case). -/
theorem toTranslationKey_idempotent (T : String) :
    toTranslationKey (toTranslationKey T) = toTranslationKey T := by
  show (⟨normalizeChars (String.data ⟨normalizeChars T.data⟩)⟩ : String) =
    ⟨normalizeChars T.data⟩
  exact congrArg String.mk (normalizeChars_idem T.data)

/-! ### In-memory caches

`sharedTranslationMap` and `sharedTranslationErrorMap` are JS `Map`s;
modelled as insertion-ordered association lists. -/

/-- JS `Map.prototype.set`: overwrite in place if the key exists, otherwise
append at the end. -/
def mapSet : List (String × String) → String → String → List (String × String)
  | [], k, v => [(k, v)]
  | (k', v') :: rest, k, v =>
    if k' = k then (k, v) :: rest else (k', v') :: mapSet rest k v

/-- JS `Map.prototype.get` (`none` models `undefined`). -/
def mapGet? : List (String × String) → String → Option String
  | [], _ => none
  | (k', v') :: rest, k => if k' = k then some v' else mapGet? rest k

/-- JS `Map.prototype.has`. -/
def mapHas (m : List (String × String)) (k : String) : Bool :=
  (mapGet? m k).isSome

theorem mapGet?_set_self (m : List (String × String)) (k v : String) :
    mapGet? (mapSet m k v) k = some v := by
  induction m with
  | nil => simp [mapSet, mapGet?]
  | cons p rest ih =>
    obtain ⟨k', v'⟩ := p
    by_cases h : k' = k
    · simp [mapSet, mapGet?, h]
    · simp [mapSet, mapGet?, h, ih]

theorem mapGet?_set_ne (m : List (String × String)) {k k2 : String} (v : String)
    (h : k ≠ k2) : mapGet? (mapSet m k v) k2 = mapGet? m k2 := by
  induction m with
  | nil => simp [mapSet, mapGet?, h]
  | cons p rest ih =>
    obtain ⟨k', v'⟩ := p
    by_cases h2 : k' = k
    · subst h2
      simp [mapSet, mapGet?, h]
    · simp only [mapSet, h2, if_false]
      by_cases h3 : k' = k2
      · simp [mapGet?, h3]
      · simp [mapGet?, h3, ih]

/-! ### Translation queue (src/contentscript.js, `TranslationQueue`)

The queue owns a pending list `queue` and an in-progress flag
`isProcessing`.  `processQueue` drains the pending list in batches of at
most `BATCH_MAXIMUM_SIZE`, sending each batch through `fetchTranslation`
(modelled by an oracle indexed by the outbound-call number) and routing the
outcome into the shared maps, collecting `SubtitleRecord`s to persist. -/

/-- A record persisted to the durable cache (src/database.js
`SubtitleRecord`). -/
structure SubtitleRecord where
  movieName : String
  originalLanguage : String
  targetLanguage : String
  originalText : String
  translatedText : String
deriving DecidableEq

/-- The value stored in the success cache for a translated text:
`translatedText.trim().replace(/\n/g, ' ')` (src/contentscript.js line 116). -/
def normalizeTranslatedText (t : String) : String :=
  ⟨(jsTrim t.data).map replaceNewlineChar⟩

/-- Result of `fetchTranslation`: `[true, translatedTexts]` or
`[false, errorMessage]` (the content-script wrapper catches messaging
failures into the `failure` case, so the call is total). -/
inductive FetchResult where
  | success : List String → FetchResult
  | failure : String → FetchResult
deriving DecidableEq

/-- Ambient state read by `processQueue`: the enabled flag, the current
movie name, the target language, whether the IndexedDB handle is available,
and the translation responder (one entry per outbound call). -/
structure QueueEnv where
  dualSubEnabled : Bool
  currentMovieName : Option String
  targetLanguage : String
  hasDatabase : Bool
  fetch : Nat → List String → FetchResult

/-- Mutable state owned by the queue and the shared caches. -/
structure QueueState where
  queue : List String
  isProcessing : Bool
  sharedTranslationMap : List (String × String)
  sharedTranslationErrorMap : List (String × String)
deriving DecidableEq

/-- What one call to `processQueue` did: the final state, the outbound
translation calls issued (in order), and the record batches submitted to
`saveSubtitlesBatch` (in order). -/
structure DrainResult where
  state : QueueState
  calls : List (List String)
  submissions : List (List SubtitleRecord)
deriving DecidableEq

def BATCH_MAXIMUM_SIZE : Nat := 7

/-- The success branch of one `processQueue` iteration (src/contentscript.js
lines 106–137): walk the batch by position, write
`toTranslationKey(raw) ↦ normalizeTranslatedText(translated)` into the
success cache, and collect a `SubtitleRecord` when `currentMovieName` is
set.  If the response has fewer entries than the batch, accessing the
missing entry throws (`undefined.trim()`); the writes made so far remain
and `completed` is `false`, in which case the caller's `catch` skips the
`saveSubtitlesBatch` submission. -/
def applySuccessBatch (movie : Option String) (tgt : String) :
    List String → List String → List (String × String) →
      List (String × String) × List SubtitleRecord × Bool
  | [], _, m => (m, [], true)
  | _ :: _, [], m => (m, [], false)
  | raw :: raws, tr :: trs, m =>
    let key := toTranslationKey raw
    let val := normalizeTranslatedText tr
    let rest := applySuccessBatch movie tgt raws trs (mapSet m key val)
    (rest.1,
      (match movie with
        | some mv => [⟨mv, "FI", tgt, key, val⟩]
        | none => []) ++ rest.2.1,
      rest.2.2)

/-- The failure branch of one `processQueue` iteration (src/contentscript.js
lines 139–148): write `"Error: " ++ msg` into the error cache under every
key of the batch. -/
def errorWrites (msg : String) (batch : List String)
    (em : List (String × String)) : List (String × String) :=
  batch.foldl (fun acc raw => mapSet acc (toTranslationKey raw) ("Error: " ++ msg)) em

/-- The batch-cutting `for` loop of one `processQueue` iteration
(src/contentscript.js lines 98–101):

`for (let i = 0; i < Math.min(this.queue.length, this.BATCH_MAXIMUM_SIZE); i++)
{ toProcessItems.push(this.queue.shift()); }`

The loop condition re-reads `this.queue.length`, which every `shift()`
decrements, so the first argument is the running counter `i` and the second
the current (already-shrunk) queue.  Returns `(toProcessItems, remaining
queue)`.  The `[]` case is unreachable while the condition holds (then
`min(length, 7) = 0`), so it returns the unchanged empty queue. -/
def shiftBatch : Nat → List String → List String × List String
  | _, [] => ([], [])
  | i, x :: rest =>
    if i < min (x :: rest).length BATCH_MAXIMUM_SIZE then
      let r := shiftBatch (i + 1) rest
      (x :: r.1, r.2)
    else ([], x :: rest)

/-- The `while` loop of `processQueue`.  The fuel argument is an upper bound
on the number of iterations (each iteration removes at least one pending
item, so `queue.length` suffices); `callIdx` numbers the outbound calls for
the responder oracle. -/
def processLoop (env : QueueEnv) : Nat → Nat → List String →
    List (String × String) → List (String × String) → DrainResult
  | 0, _, q, m, e => ⟨⟨q, false, m, e⟩, [], []⟩
  | fuel + 1, callIdx, q, m, e =>
    if q.isEmpty || !env.dualSubEnabled then ⟨⟨q, false, m, e⟩, [], []⟩
    else
      let batch := (shiftBatch 0 q).1
      let rest := (shiftBatch 0 q).2
      match env.fetch callIdx batch with
      | FetchResult.success translatedTexts =>
        let out := applySuccessBatch env.currentMovieName env.targetLanguage
          batch translatedTexts m
        let subs := if out.2.2 && env.hasDatabase then [out.2.1] else []
        let restResult := processLoop env fuel (callIdx + 1) rest out.1 e
        ⟨restResult.state, batch :: restResult.calls, subs ++ restResult.submissions⟩
      | FetchResult.failure msg =>
        let restResult := processLoop env fuel (callIdx + 1) rest m (errorWrites msg batch e)
        ⟨restResult.state, batch :: restResult.calls, restResult.submissions⟩

/-- `TranslationQueue.processQueue` (src/contentscript.js lines 91–156):
early-return when a drain is in progress or the queue is empty, otherwise
drain in batches; the in-progress flag is cleared when the loop exits. -/
def processQueue (env : QueueEnv) (s : QueueState) : DrainResult :=
  if s.isProcessing || s.queue.isEmpty then ⟨s, [], []⟩
  else processLoop env s.queue.length 0 s.queue
    s.sharedTranslationMap s.sharedTranslationErrorMap

/-- The character class of the regex `/[a-zäöå]/` used by the cue listener. -/
def hasFinnishAlphaChar (key : String) : Bool :=
  key.data.any (fun c => ('a' ≤ c && c ≤ 'z') || c = 'ä' || c = 'ö' || c = 'å')

/-- The `sendTranslationTextEvent` listener (src/contentscript.js lines
764–789), up to the point where it triggers the asynchronous `processQueue`
drain: the success-cache check, the self-translation shortcut for short or
non-alphabetic keys, and the enqueue (`addToQueue` appends to the pending
list). -/
def sendTranslationTextEvent (s : QueueState) (rawSubtitleFinnishText : String) :
    QueueState :=
  let translationKey := toTranslationKey rawSubtitleFinnishText
  if mapHas s.sharedTranslationMap translationKey then s
  else if translationKey.length ≤ 1 || !hasFinnishAlphaChar translationKey then
    { s with sharedTranslationMap :=
        mapSet s.sharedTranslationMap translationKey translationKey }
  else
    { s with queue := s.queue ++ [rawSubtitleFinnishText] }

/-! ### Queue theorems -/

/-- **C4** (confirmed). At-most-one in-flight batch: whenever the
in-progress flag is set, a call to `processQueue` is a no-op — the state is
unchanged, no outbound translation call is issued and nothing is submitted
for persistence.  Hence a drain never starts while another is active, which
is what serializes the outbound translation calls of one queue instance. -/
theorem processQueue_noop_of_isProcessing (env : QueueEnv) (s : QueueState)
    (h : s.isProcessing = true) : processQueue env s = ⟨s, [], []⟩ := by
  simp [processQueue, h]

theorem processQueue_noop_of_isProcessing_witness :
    processQueue
      ⟨true, some "Movie A", "EN-US", true, fun _ _ => FetchResult.failure "boom"⟩
      ⟨["Hei"], true, [], []⟩ =
      ⟨⟨["Hei"], true, [], []⟩, [], []⟩ :=
  processQueue_noop_of_isProcessing _ _ rfl

/-- The part of the queue not consumed by a batch-cutting loop is no longer
than the queue. -/
theorem shiftBatch_snd_length_le :
    ∀ (q : List String) (i : Nat), (shiftBatch i q).2.length ≤ q.length := by
  intro q
  induction q with
  | nil => intro i; exact Nat.le_refl 0
  | cons x rest ih =>
    intro i
    rw [shiftBatch]
    by_cases hc : i < min (x :: rest).length BATCH_MAXIMUM_SIZE
    · rw [if_pos hc]
      show (shiftBatch (i + 1) rest).2.length ≤ (x :: rest).length
      calc (shiftBatch (i + 1) rest).2.length ≤ rest.length := ih (i + 1)
        _ ≤ (x :: rest).length := by simp
    · rw [if_neg hc]

/-- A batch-cutting loop started on a non-empty queue consumes at least one
item. -/
theorem shiftBatch_snd_length_lt (q : List String) (hq : q ≠ []) :
    (shiftBatch 0 q).2.length < q.length := by
  cases q with
  | nil => exact absurd rfl hq
  | cons x rest =>
    rw [shiftBatch]
    rw [if_pos (by rw [Nat.lt_min]; refine ⟨by simp, by norm_num [BATCH_MAXIMUM_SIZE]⟩)]
    show (shiftBatch 1 rest).2.length < (x :: rest).length
    calc (shiftBatch 1 rest).2.length ≤ rest.length := shiftBatch_snd_length_le rest 1
      _ < (x :: rest).length := by simp

/-- The batch comes from the front of the queue, in order, and the rest is
the matching suffix. -/
theorem shiftBatch_append :
    ∀ (q : List String) (i : Nat), (shiftBatch i q).1 ++ (shiftBatch i q).2 = q := by
  intro q
  induction q with
  | nil => intro i; rfl
  | cons x rest ih =>
    intro i
    rw [shiftBatch]
    by_cases hc : i < min (x :: rest).length BATCH_MAXIMUM_SIZE
    · rw [if_pos hc]
      show x :: ((shiftBatch (i + 1) rest).1 ++ (shiftBatch (i + 1) rest).2) = x :: rest
      rw [ih (i + 1)]
    · rw [if_neg hc]
      rfl

/-- Closed form of the batch-cutting loop: from counter `i` it removes
`min ((length - i + 1) / 2) (BATCH_MAXIMUM_SIZE - i)` items.  In
particular a drain iteration takes `min(⌈L/2⌉, 7)` items of a queue of
length `L` — not `min(L, 7)` — because the loop condition re-reads the
length that each `shift()` decrements. -/
theorem shiftBatch_spec :
    ∀ (q : List String) (i : Nat),
      shiftBatch i q =
        (q.take (min ((q.length - i + 1) / 2) (BATCH_MAXIMUM_SIZE - i)),
          q.drop (min ((q.length - i + 1) / 2) (BATCH_MAXIMUM_SIZE - i))) := by
  intro q
  induction q with
  | nil => intro i; simp [shiftBatch]
  | cons x rest ih =>
    intro i
    rw [shiftBatch]
    by_cases hc : i < min (x :: rest).length BATCH_MAXIMUM_SIZE
    · rw [if_pos hc]
      show (x :: (shiftBatch (i + 1) rest).1, (shiftBatch (i + 1) rest).2) = _
      rw [ih (i + 1)]
      rw [Nat.lt_min] at hc
      have hlen : (x :: rest).length = rest.length + 1 := by simp
      have harith : min (((x :: rest).length - i + 1) / 2) (BATCH_MAXIMUM_SIZE - i)
          = min ((rest.length - (i + 1) + 1) / 2) (BATCH_MAXIMUM_SIZE - (i + 1)) + 1 := by
        simp only [hlen, BATCH_MAXIMUM_SIZE] at hc ⊢
        omega
      rw [harith]
      simp
    · rw [if_neg hc]
      rw [Nat.lt_min] at hc
      have hz : min (((x :: rest).length - i + 1) / 2) (BATCH_MAXIMUM_SIZE - i) = 0 := by
        simp only [List.length_cons, BATCH_MAXIMUM_SIZE] at hc ⊢
        omega
      rw [hz]
      simp

/-- The drain loop always leaves an empty pending list when given enough
fuel (one unit per batch is ample since every iteration removes at least
one item). -/
theorem processLoop_queue_nil (env : QueueEnv) (hen : env.dualSubEnabled = true) :
    ∀ (fuel : Nat) (q : List String) (callIdx : Nat) (m e : List (String × String)),
      q.length ≤ fuel → (processLoop env fuel callIdx q m e).state.queue = [] := by
  intro fuel
  induction fuel with
  | zero =>
    intro q callIdx m e hle
    have hq : q = [] := List.length_eq_zero.mp (Nat.le_zero.mp hle)
    rw [hq]
    rfl
  | succ fuel ih =>
    intro q callIdx m e hle
    by_cases hq : q.isEmpty
    · simp [processLoop, hq, List.isEmpty_iff.mp hq]
    · have hqne : q ≠ [] := fun he => hq (List.isEmpty_iff.mpr he)
      have hrest : (shiftBatch 0 q).2.length ≤ fuel := by
        have hlt := shiftBatch_snd_length_lt q hqne
        omega
      simp only [processLoop, hq, hen, Bool.not_true, Bool.or_false, Bool.false_eq_true,
        if_false]
      cases env.fetch callIdx (shiftBatch 0 q).1 with
      | success translatedTexts => exact ih _ _ _ _ hrest
      | failure msg => exact ih _ _ _ _ hrest

/-- **C7** (code bug). The claim — two outbound calls of sizes 7 and 3 for
a 10-item drain, each iteration removing up to `BATCH_MAXIMUM_SIZE = 7`
items — matches the evident intent of the constant and of
`Math.min(this.queue.length, this.BATCH_MAXIMUM_SIZE)`, but the loop
condition (src/contentscript.js line 99) re-reads the queue length that
each `shift()` decrements, so an iteration removes only `min(⌈L/2⌉, 7)`
items.  Evaluating the embedded code on a 10-item queue: four outbound
calls of sizes 5, 3, 1 and 1 (and an emptied queue), not the claimed two
calls of sizes 7 and 3. -/
theorem processQueue_ten_items_actual_calls :
    (processQueue
        ⟨true, none, "EN-US", false, fun _ _ => FetchResult.failure "boom"⟩
        ⟨["a1", "a2", "a3", "a4", "a5", "a6", "a7", "a8", "a9", "a10"],
          false, [], []⟩).calls =
      [["a1", "a2", "a3", "a4", "a5"], ["a6", "a7", "a8"], ["a9"], ["a10"]] ∧
    (processQueue
        ⟨true, none, "EN-US", false, fun _ _ => FetchResult.failure "boom"⟩
        ⟨["a1", "a2", "a3", "a4", "a5", "a6", "a7", "a8", "a9", "a10"],
          false, [], []⟩).calls ≠
      [["a1", "a2", "a3", "a4", "a5", "a6", "a7"], ["a8", "a9", "a10"]] ∧
    (processQueue
        ⟨true, none, "EN-US", false, fun _ _ => FetchResult.failure "boom"⟩
        ⟨["a1", "a2", "a3", "a4", "a5", "a6", "a7", "a8", "a9", "a10"],
          false, [], []⟩).state.queue = [] := by
  refine ⟨by decide, by decide, by decide⟩

/-- **C1** counterexample.  The cue listener checks only the success cache
before enqueueing: with the key `"moi"` present in the error cache (and not
in the success cache), the incoming cue `"Moi"` is still appended to the
pending translation queue, refuting the claim that presence in either cache
prevents the cue from reaching the queue. -/
theorem sendTranslationTextEvent_error_cached_still_enqueued :
    mapHas ([("moi", "Error: boom")]) (toTranslationKey "Moi") = true ∧
    (sendTranslationTextEvent ⟨[], false, [], [("moi", "Error: boom")]⟩ "Moi").queue
      = ["Moi"] := by
  constructor
  · decide
  · decide

/-- **C1** amended (the code checks only the success cache): for every
incoming cue event, if the normalized key of the cue text is already
present in the in-memory success cache, the listener returns immediately —
nothing is appended to the pending queue and no state changes.  Presence in
the error cache alone does not prevent re-enqueueing. -/
theorem sendTranslationTextEvent_success_cached_noop (s : QueueState) (raw : String)
    (h : mapHas s.sharedTranslationMap (toTranslationKey raw) = true) :
    sendTranslationTextEvent s raw = s := by
  simp [sendTranslationTextEvent, h]

theorem sendTranslationTextEvent_success_cached_noop_witness :
    sendTranslationTextEvent ⟨[], false, [("moi", "Hi")], []⟩ "Moi"
      = ⟨[], false, [("moi", "Hi")], []⟩ :=
  sendTranslationTextEvent_success_cached_noop _ _ (by decide)

/-- **C8** (confirmed). A cue whose normalized key has length ≤ 1 or
contains no character of `[a-zäöå]` never reaches the pending queue; it is
recorded as a self-translation instead: if the key was not already cached,
the success cache afterwards maps the key to itself.  The error cache is
untouched. -/
theorem sendTranslationTextEvent_self_translation (s : QueueState) (raw : String)
    (h : (toTranslationKey raw).length ≤ 1 ∨
      hasFinnishAlphaChar (toTranslationKey raw) = false) :
    (sendTranslationTextEvent s raw).queue = s.queue ∧
    (sendTranslationTextEvent s raw).sharedTranslationErrorMap =
      s.sharedTranslationErrorMap ∧
    (mapHas s.sharedTranslationMap (toTranslationKey raw) = false →
      mapGet? (sendTranslationTextEvent s raw).sharedTranslationMap
        (toTranslationKey raw) = some (toTranslationKey raw)) := by
  by_cases hc : mapHas s.sharedTranslationMap (toTranslationKey raw) = true
  · have hs : sendTranslationTextEvent s raw = s := by
      simp [sendTranslationTextEvent, hc]
    rw [hs]
    exact ⟨rfl, rfl, fun hfalse => absurd (hc.symm.trans hfalse) (by decide)⟩
  · have hcb : mapHas s.sharedTranslationMap (toTranslationKey raw) = false := by
      simpa using hc
    have hcond : ((toTranslationKey raw).length ≤ 1 ||
        !hasFinnishAlphaChar (toTranslationKey raw)) = true := by
      rcases h with h | h
      · simp [h]
      · simp [h]
    have hs : sendTranslationTextEvent s raw =
        { s with sharedTranslationMap :=
            mapSet s.sharedTranslationMap (toTranslationKey raw) (toTranslationKey raw) } := by
      rw [sendTranslationTextEvent]
      simp only [hcb, Bool.false_eq_true, if_false]
      rw [if_pos (by simpa using hcond)]
    rw [hs]
    exact ⟨rfl, rfl, fun _ => mapGet?_set_self _ _ _⟩

theorem applySuccessBatch_get_notmem (movie : Option String) (tgt : String) :
    ∀ (raws trs : List String) (m : List (String × String)) (k : String),
      k ∉ raws.map toTranslationKey →
      mapGet? (applySuccessBatch movie tgt raws trs m).1 k = mapGet? m k := by
  intro raws
  induction raws with
  | nil => intro trs m k _; rfl
  | cons raw raws ih =>
    intro trs m k hk
    cases trs with
    | nil => rfl
    | cons tr trs =>
      simp only [List.map_cons, List.mem_cons, not_or] at hk
      show mapGet? (applySuccessBatch movie tgt raws trs
        (mapSet m (toTranslationKey raw) (normalizeTranslatedText tr))).1 k = mapGet? m k
      rw [ih trs _ k hk.2, mapGet?_set_ne _ _ (fun he => hk.1 he.symm)]

/-- **C2** amended (the stored value is the response text trimmed with
newlines replaced by spaces, and with duplicate normalized keys the last
write wins): when a batch `[t1..tn]` is translated successfully returning
`[r1..rn]` and the normalized keys of the batch are pairwise distinct,
then for every position `i` the success-cache entry under
`toTranslationKey ti` equals `ri.trim().replace(/\n/g, ' ')`. -/
theorem applySuccessBatch_positional (movie : Option String) (tgt : String) :
    ∀ (raws trs : List String) (m : List (String × String)) (i : Nat)
      (raw tr : String),
      trs.length = raws.length →
      (raws.map toTranslationKey).Nodup →
      raws[i]? = some raw → trs[i]? = some tr →
      mapGet? (applySuccessBatch movie tgt raws trs m).1 (toTranslationKey raw)
        = some (normalizeTranslatedText tr) := by
  intro raws
  induction raws with
  | nil =>
    intro trs m i raw tr _ _ hr _
    simp at hr
  | cons raw0 raws ih =>
    intro trs m i raw tr hlen hnd hr ht
    cases trs with
    | nil => simp at hlen
    | cons tr0 trs =>
      rw [List.map_cons, List.nodup_cons] at hnd
      have hnd2 := hnd
      cases i with
      | zero =>
        have hraw : raw = raw0 := by simpa using hr.symm
        have htr : tr = tr0 := by simpa using ht.symm
        subst hraw
        subst htr
        show mapGet? (applySuccessBatch movie tgt raws trs
          (mapSet m (toTranslationKey raw) (normalizeTranslatedText tr))).1
            (toTranslationKey raw) = some (normalizeTranslatedText tr)
        rw [applySuccessBatch_get_notmem movie tgt raws trs _ _ hnd2.1]
        exact mapGet?_set_self _ _ _
      | succ i =>
        have hr2 : raws[i]? = some raw := by simpa using hr
        have ht2 : trs[i]? = some tr := by simpa using ht
        exact ih trs _ i raw tr (by simpa using hlen) hnd2.2 hr2 ht2

theorem applySuccessBatch_positional_witness :
    (["Hi", "Hello"] : List String).length = (["Moi", "Terve"] : List String).length ∧
    ((["Moi", "Terve"] : List String).map toTranslationKey).Nodup ∧
    (["Moi", "Terve"] : List String)[1]? = some "Terve" ∧
    (["Hi", "Hello"] : List String)[1]? = some "Hello" ∧
    mapGet? (applySuccessBatch (some "Movie A") "EN-US"
        ["Moi", "Terve"] ["Hi", "Hello"] []).1 (toTranslationKey "Terve")
      = some (normalizeTranslatedText "Hello") :=
  ⟨by decide, by decide, by decide, by decide,
    applySuccessBatch_positional (some "Movie A") "EN-US" ["Moi", "Terve"]
      ["Hi", "Hello"] [] 1 "Terve" "Hello" (by decide) (by decide) (by decide) (by decide)⟩

/-- **C2** counterexample.  For the batch `["Moi"]` successfully returning
`[" Hi "]`, the success-cache entry under `toTranslationKey "Moi"` is the
trimmed value `"Hi"`, not the positional response `" Hi "` itself, refuting
the claim that the entry equals `ri` verbatim. -/
theorem applySuccessBatch_entry_not_raw_response :
    mapGet? (applySuccessBatch none "EN-US" ["Moi"] [" Hi "] []).1
        (toTranslationKey "Moi") = some "Hi" ∧
    mapGet? (applySuccessBatch none "EN-US" ["Moi"] [" Hi "] []).1
        (toTranslationKey "Moi") ≠ some " Hi " := by
  refine ⟨by decide, by decide⟩

/-- With no current movie name, the success handler collects no records to
persist. -/
theorem applySuccessBatch_records_none (tgt : String) :
    ∀ (raws trs : List String) (m : List (String × String)),
      (applySuccessBatch none tgt raws trs m).2.1 = [] := by
  intro raws
  induction raws with
  | nil => intro trs m; rfl
  | cons raw raws ih =>
    intro trs m
    cases trs with
    | nil => rfl
    | cons tr trs =>
      show ([] ++ (applySuccessBatch none tgt raws trs _).2.1 : List SubtitleRecord) = []
      rw [List.nil_append]
      exact ih trs _

/-- The in-memory cache updates and the completion flag of the success
handler do not depend on the current movie name. -/
theorem applySuccessBatch_indep_movie (m1 m2 : Option String) (tgt : String) :
    ∀ (raws trs : List String) (m : List (String × String)),
      (applySuccessBatch m1 tgt raws trs m).1 = (applySuccessBatch m2 tgt raws trs m).1 ∧
      (applySuccessBatch m1 tgt raws trs m).2.2 =
        (applySuccessBatch m2 tgt raws trs m).2.2 := by
  intro raws
  induction raws with
  | nil => intro trs m; exact ⟨rfl, rfl⟩
  | cons raw raws ih =>
    intro trs m
    cases trs with
    | nil => exact ⟨rfl, rfl⟩
    | cons tr trs => exact ih trs _

def setMovie (env : QueueEnv) (mv : Option String) : QueueEnv :=
  ⟨env.dualSubEnabled, mv, env.targetLanguage, env.hasDatabase, env.fetch⟩

theorem processLoop_submissions_no_movie (env : QueueEnv)
    (h : env.currentMovieName = none) :
    ∀ (fuel callIdx : Nat) (q : List String) (m e : List (String × String)),
      ((processLoop env fuel callIdx q m e).submissions).flatten = [] := by
  intro fuel
  induction fuel with
  | zero => intro callIdx q m e; rfl
  | succ fuel ih =>
    intro callIdx q m e
    by_cases hq : (q.isEmpty || !env.dualSubEnabled) = true
    · simp [processLoop, hq]
    · simp only [processLoop, hq, Bool.false_eq_true, if_false]
      cases env.fetch callIdx (shiftBatch 0 q).1 with
      | success translatedTexts =>
        simp only
        rw [h, applySuccessBatch_records_none]
        by_cases hcc : ((applySuccessBatch none env.targetLanguage
            (shiftBatch 0 q).1 translatedTexts m).2.2 && env.hasDatabase) = true
        · simp [hcc, ih]
        · simp [hcc, ih]
      | failure msg => exact ih _ _ _ _

theorem processLoop_indep_movie (env : QueueEnv) (m1 m2 : Option String) :
    ∀ (fuel callIdx : Nat) (q : List String) (m e : List (String × String)),
      (processLoop (setMovie env m1) fuel callIdx q m e).state =
        (processLoop (setMovie env m2) fuel callIdx q m e).state ∧
      (processLoop (setMovie env m1) fuel callIdx q m e).calls =
        (processLoop (setMovie env m2) fuel callIdx q m e).calls := by
  intro fuel
  induction fuel with
  | zero => intro callIdx q m e; exact ⟨rfl, rfl⟩
  | succ fuel ih =>
    intro callIdx q m e
    by_cases hq : (q.isEmpty || !env.dualSubEnabled) = true
    · constructor <;> simp [processLoop, setMovie, hq]
    · have hmap := applySuccessBatch_indep_movie m1 m2 env.targetLanguage
        (shiftBatch 0 q).1
      simp only [processLoop, setMovie, hq, Bool.false_eq_true, if_false]
      cases env.fetch callIdx (shiftBatch 0 q).1 with
      | success translatedTexts =>
        simp only
        rw [(hmap translatedTexts m).1]
        exact ⟨(ih _ _ _ _).1, congrArg (List.cons _) (ih _ _ _ _).2⟩
      | failure msg =>
        exact ⟨(ih _ _ _ _).1, congrArg (List.cons _) (ih _ _ _ _).2⟩

/-- **C10** (confirmed). When no current movie name is set, a successful
drain writes only to the in-memory caches: every batch submitted to
`saveSubtitlesBatch` is empty (so the persisted translation units are
unchanged), while the resulting queue state and the outbound calls are
exactly the same as they would be under any movie name — durable
persistence of translation units is the only thing gated on the movie
name. -/
theorem processQueue_no_movie_no_persistence (env : QueueEnv) (s : QueueState)
    (h : env.currentMovieName = none) :
    ((processQueue env s).submissions).flatten = [] ∧
    ∀ mv : Option String,
      (processQueue (setMovie env mv) s).state = (processQueue env s).state ∧
      (processQueue (setMovie env mv) s).calls = (processQueue env s).calls := by
  have henv : setMovie env none = env := by
    cases env with
    | mk en cm tl hd f =>
      simp only [setMovie]
      simp at h
      rw [h]
  constructor
  · rw [processQueue]
    by_cases hc : (s.isProcessing || s.queue.isEmpty) = true
    · rw [if_pos hc]
      rfl
    · rw [if_neg hc]
      exact processLoop_submissions_no_movie env h _ _ _ _ _
  · intro mv
    rw [processQueue, processQueue]
    by_cases hc : (s.isProcessing || s.queue.isEmpty) = true
    · rw [if_pos hc, if_pos hc]
      exact ⟨rfl, rfl⟩
    · rw [if_neg hc, if_neg hc]
      have hin := processLoop_indep_movie env mv none s.queue.length 0 s.queue
        s.sharedTranslationMap s.sharedTranslationErrorMap
      rw [henv] at hin
      exact hin

theorem processQueue_no_movie_no_persistence_witness :
    ((processQueue
        ⟨true, none, "EN-US", true, fun _ _ => FetchResult.success ["Hi"]⟩
        ⟨["Moi"], false, [], []⟩).submissions).flatten = [] ∧
    ∀ mv : Option String,
      (processQueue (setMovie ⟨true, none, "EN-US", true,
          fun _ _ => FetchResult.success ["Hi"]⟩ mv) ⟨["Moi"], false, [], []⟩).state =
        (processQueue ⟨true, none, "EN-US", true,
          fun _ _ => FetchResult.success ["Hi"]⟩ ⟨["Moi"], false, [], []⟩).state ∧
      (processQueue (setMovie ⟨true, none, "EN-US", true,
          fun _ _ => FetchResult.success ["Hi"]⟩ mv) ⟨["Moi"], false, [], []⟩).calls =
        (processQueue ⟨true, none, "EN-US", true,
          fun _ _ => FetchResult.success ["Hi"]⟩ ⟨["Moi"], false, [], []⟩).calls :=
  processQueue_no_movie_no_persistence _ _ rfl

theorem sendTranslationTextEvent_self_translation_witness :
    ((toTranslationKey "!").length ≤ 1 ∨
      hasFinnishAlphaChar (toTranslationKey "!") = false) ∧
    ((sendTranslationTextEvent ⟨[], false, [], []⟩ "!").queue = [] ∧
      (sendTranslationTextEvent ⟨[], false, [], []⟩ "!").sharedTranslationErrorMap = [] ∧
      (mapHas ([] : List (String × String)) (toTranslationKey "!") = false →
        mapGet? (sendTranslationTextEvent ⟨[], false, [], []⟩ "!").sharedTranslationMap
          (toTranslationKey "!") = some (toTranslationKey "!"))) :=
  ⟨by decide, sendTranslationTextEvent_self_translation ⟨[], false, [], []⟩ "!" (by decide)⟩

/-! ### Retry controller (src/background.js) -/

/-- Outcome of one `translateTexts` call: success with the translated
texts, a `DeepLTranslationError` carrying the HTTP status of a non-2xx
response, or a plain error message for network/parsing failures. -/
inductive TranslateResult where
  | ok : List String → TranslateResult
  | httpError : Nat → TranslateResult
  | message : String → TranslateResult

def MAX_RETRIES : Nat := 3

/-- The statuses retried by `translateTextsWithErrorHandling`
(src/background.js line 167). -/
def RETRYABLE_STATUSES : List Nat := [413, 429, 503, 504, 529]

/-- `getErrorMessageFromStatus` (src/background.js lines 114–139),
message strings verbatim. -/
def getErrorMessageFromStatus (status : Nat) : String :=
  match status with
  | 400 => "Translation request is invalid. Please try again."
  | 403 => "This API key is invalid. Please check your DeepL translation key in settings."
  | 404 => "Cannot connect to DeepL. Please contact the extension developer."
  | 413 => "Subtitle text is too large. Please contact the extension developer."
  | 414 => "Request URL is too long. Please contact the extension developer."
  | 429 => "You're translating too quickly. Please wait a moment and try again."
  | 456 => "Monthly character limit reached. Please use a different translation key or upgrade your plan."
  | 500 => "DeepL is having technical problems. Please try again in a few minutes."
  | 504 => "DeepL is temporarily unavailable. Please try again in a few minutes."
  | 529 => "You're translating too quickly. Please wait a moment and try again."
  | _ => "Translation failed (error " ++ toString status ++ "). Please try again later."

/-- `calculateBackoffDelay` (src/background.js lines 79–89): exponential
base `200 * 2 ^ attempt` milliseconds plus jitter `random * (delay / 2)`,
where `random` models the `Math.random()` draw for this call. -/
def calculateBackoffDelay (attempt : Nat) (random : ℚ) : ℚ :=
  let exponentialDelay : ℚ := 200 * 2 ^ attempt
  let jitter := random * (exponentialDelay / 2)
  exponentialDelay + jitter

/-- The `for` loop of `translateTextsWithErrorHandling` (src/background.js
lines 152–183).  `remaining = MAX_RETRIES - attempt` counts the iterations
left; `respond n` is the outcome of the `(n+1)`-st `translateTexts` call
and `random n` the `Math.random()` draw before retrying.  Returns the
`[isSucceeded, payload]` result as a sum, the number of attempts (outbound
calls) made, and the backoff delays slept, in order.  The `remaining = 0`
case is the unreachable fall-through after the loop
("Translation failed after 3 retry attempts."). -/
def retryLoop (respond : Nat → TranslateResult) (random : Nat → ℚ) :
    Nat → Nat → (List String ⊕ String) × Nat × List ℚ
  | 0, _ => (Sum.inr "Translation failed after 3 retry attempts.", 0, [])
  | remaining + 1, attempt =>
    match respond attempt with
    | TranslateResult.ok texts => (Sum.inl texts, 1, [])
    | TranslateResult.httpError status =>
      if status ∈ RETRYABLE_STATUSES then
        if attempt < MAX_RETRIES - 1 then
          let d := calculateBackoffDelay attempt (random attempt)
          let rest := retryLoop respond random remaining (attempt + 1)
          (rest.1, rest.2.1 + 1, d :: rest.2.2)
        else
          (Sum.inr (getErrorMessageFromStatus status), 1, [])
      else
        (Sum.inr (getErrorMessageFromStatus status), 1, [])
    | TranslateResult.message msg => (Sum.inr msg, 1, [])

/-- `translateTextsWithErrorHandling` (src/background.js lines 149–186). -/
def translateTextsWithErrorHandling (respond : Nat → TranslateResult)
    (random : Nat → ℚ) : (List String ⊕ String) × Nat × List ℚ :=
  retryLoop respond random MAX_RETRIES 0

/-- **C3** (confirmed). Retry bound: if every attempt fails with HTTP 429
(retryable), `translateTextsWithErrorHandling` makes exactly
`MAX_RETRIES = 3` attempts, sleeps one backoff delay between each pair of
consecutive attempts (two delays for three attempts, with the exponential
base doubling), and returns the terminal failure message for 429. -/
theorem retry_always_429_three_attempts (respond : Nat → TranslateResult)
    (random : Nat → ℚ) (h : ∀ n, respond n = TranslateResult.httpError 429) :
    MAX_RETRIES = 3 ∧
    (translateTextsWithErrorHandling respond random).2.1 = 3 ∧
    (translateTextsWithErrorHandling respond random).1 =
      Sum.inr (getErrorMessageFromStatus 429) ∧
    (translateTextsWithErrorHandling respond random).2.2 =
      [calculateBackoffDelay 0 (random 0), calculateBackoffDelay 1 (random 1)] := by
  refine ⟨rfl, ?_, ?_, ?_⟩ <;>
    simp [translateTextsWithErrorHandling, MAX_RETRIES, retryLoop, h, RETRYABLE_STATUSES]

theorem retry_always_429_three_attempts_witness :
    MAX_RETRIES = 3 ∧
    (translateTextsWithErrorHandling (fun _ => TranslateResult.httpError 429)
        (fun _ => 0)).2.1 = 3 ∧
    (translateTextsWithErrorHandling (fun _ => TranslateResult.httpError 429)
        (fun _ => 0)).1 = Sum.inr (getErrorMessageFromStatus 429) ∧
    (translateTextsWithErrorHandling (fun _ => TranslateResult.httpError 429)
        (fun _ => 0)).2.2 =
      [calculateBackoffDelay 0 ((fun _ : Nat => (0 : ℚ)) 0),
        calculateBackoffDelay 1 ((fun _ : Nat => (0 : ℚ)) 1)] :=
  retry_always_429_three_attempts (fun _ => TranslateResult.httpError 429)
    (fun _ => 0) (fun _ => rfl)

/-- **C5** counterexample.  The claim's recap of the status-to-message
table says every unlisted status maps to the generic
"failure with code" default, but `getErrorMessageFromStatus` maps 404 to a
dedicated "Cannot connect to DeepL" message that does not carry the code. -/
theorem getErrorMessageFromStatus_404_not_generic :
    getErrorMessageFromStatus 404 =
      "Cannot connect to DeepL. Please contact the extension developer." ∧
    getErrorMessageFromStatus 404 ≠
      "Translation failed (error 404). Please try again later." := by
  refine ⟨rfl, by decide⟩

/-- **C5** amended (the mapping additionally sends 404 to a dedicated
cannot-connect message; everything else is as claimed). HTTP 456 is
terminal: exactly one attempt, no backoff sleep, and the result is the
quota-exhausted message of the centralized status-to-message table, whose
entries are also pinned here (400 invalid request, 403 invalid credential,
404 cannot connect, 413/414 too large, 429/529 rate-limited — the two
share one message —, 456 quota exhausted, 500/504 provider outage, and a
generic message carrying the code by default, e.g. for 503). -/
theorem retry_456_terminal_quota (respond : Nat → TranslateResult)
    (random : Nat → ℚ) (h : respond 0 = TranslateResult.httpError 456) :
    (translateTextsWithErrorHandling respond random).1 =
      Sum.inr (getErrorMessageFromStatus 456) ∧
    (translateTextsWithErrorHandling respond random).2.1 = 1 ∧
    (translateTextsWithErrorHandling respond random).2.2 = [] ∧
    getErrorMessageFromStatus 456 =
      "Monthly character limit reached. Please use a different translation key or upgrade your plan." ∧
    getErrorMessageFromStatus 400 = "Translation request is invalid. Please try again." ∧
    getErrorMessageFromStatus 403 =
      "This API key is invalid. Please check your DeepL translation key in settings." ∧
    getErrorMessageFromStatus 404 =
      "Cannot connect to DeepL. Please contact the extension developer." ∧
    getErrorMessageFromStatus 413 =
      "Subtitle text is too large. Please contact the extension developer." ∧
    getErrorMessageFromStatus 414 =
      "Request URL is too long. Please contact the extension developer." ∧
    getErrorMessageFromStatus 429 =
      "You're translating too quickly. Please wait a moment and try again." ∧
    getErrorMessageFromStatus 529 = getErrorMessageFromStatus 429 ∧
    getErrorMessageFromStatus 500 =
      "DeepL is having technical problems. Please try again in a few minutes." ∧
    getErrorMessageFromStatus 504 =
      "DeepL is temporarily unavailable. Please try again in a few minutes." ∧
    getErrorMessageFromStatus 503 =
      "Translation failed (error 503). Please try again later." := by
  refine ⟨?_, ?_, ?_, rfl, rfl, rfl, rfl, rfl, rfl, rfl, rfl, rfl, rfl, rfl⟩ <;>
    simp [translateTextsWithErrorHandling, MAX_RETRIES, retryLoop, h, RETRYABLE_STATUSES]

theorem retry_456_terminal_quota_witness :
    (translateTextsWithErrorHandling (fun _ => TranslateResult.httpError 456)
        (fun _ => 0)).1 = Sum.inr (getErrorMessageFromStatus 456) ∧
    (translateTextsWithErrorHandling (fun _ => TranslateResult.httpError 456)
        (fun _ => 0)).2.1 = 1 ∧
    (translateTextsWithErrorHandling (fun _ => TranslateResult.httpError 456)
        (fun _ => 0)).2.2 = [] ∧
    getErrorMessageFromStatus 456 =
      "Monthly character limit reached. Please use a different translation key or upgrade your plan." ∧
    getErrorMessageFromStatus 400 = "Translation request is invalid. Please try again." ∧
    getErrorMessageFromStatus 403 =
      "This API key is invalid. Please check your DeepL translation key in settings." ∧
    getErrorMessageFromStatus 404 =
      "Cannot connect to DeepL. Please contact the extension developer." ∧
    getErrorMessageFromStatus 413 =
      "Subtitle text is too large. Please contact the extension developer." ∧
    getErrorMessageFromStatus 414 =
      "Request URL is too long. Please contact the extension developer." ∧
    getErrorMessageFromStatus 429 =
      "You're translating too quickly. Please wait a moment and try again." ∧
    getErrorMessageFromStatus 529 = getErrorMessageFromStatus 429 ∧
    getErrorMessageFromStatus 500 =
      "DeepL is having technical problems. Please try again in a few minutes." ∧
    getErrorMessageFromStatus 504 =
      "DeepL is temporarily unavailable. Please try again in a few minutes." ∧
    getErrorMessageFromStatus 503 =
      "Translation failed (error 503). Please try again later." :=
  retry_456_terminal_quota (fun _ => TranslateResult.httpError 456) (fun _ => 0) rfl

/-! ### Durable cache store and eviction sweep (src/database.js) -/

/-- A `MovieMetadata` record: movie name and last access in days since the
Unix epoch. -/
structure MovieMetadata where
  movieName : String
  lastAccessedDays : Int
deriving DecidableEq

/-- The durable store contents relevant to the sweep: the subtitle records
of the `SubtitlesCache` object store and the `MovieMetadata` records. -/
structure CacheDatabase where
  subtitles : List SubtitleRecord
  metadata : List MovieMetadata
deriving DecidableEq

/-- `clearSubtitlesByMovieName` (src/database.js lines 411–447): delete
every subtitle record of the given movie across all languages (the cursor
over the composite-key range anchored at the movie name). -/
def clearSubtitlesByMovieName (db : CacheDatabase) (movieName : String) :
    CacheDatabase :=
  ⟨db.subtitles.filter (fun r => r.movieName ≠ movieName), db.metadata⟩

/-- `deleteMovieMetadata` (src/database.js lines 556–578): delete the
metadata record keyed by the movie name. -/
def deleteMovieMetadata (db : CacheDatabase) (movieName : String) :
    CacheDatabase :=
  ⟨db.subtitles, db.metadata.filter (fun m => m.movieName ≠ movieName)⟩

/-- The age test of the sweep: `metadata.lastAccessedDays < cutoffDays`. -/
def isOldMetadata (cutoffDays : Int) (m : MovieMetadata) : Bool :=
  m.lastAccessedDays < cutoffDays

/-- The per-movie loop of `cleanupOldMovieData` (src/database.js lines
605–619), with failure oracles: `clearFails m` (resp. `deleteFails m`)
models the `clearSubtitlesByMovieName` (resp. `deleteMovieMetadata`)
promise rejecting for movie `m`; the exception is caught and logged, that
iteration stops without incrementing the count, and the sweep continues
with the next movie. -/
def cleanupLoop (clearFails deleteFails : String → Bool) :
    List MovieMetadata → CacheDatabase → CacheDatabase × Nat
  | [], db => (db, 0)
  | meta :: rest, db =>
    if clearFails meta.movieName then cleanupLoop clearFails deleteFails rest db
    else
      let db1 := clearSubtitlesByMovieName db meta.movieName
      if deleteFails meta.movieName then cleanupLoop clearFails deleteFails rest db1
      else
        let db2 := deleteMovieMetadata db1 meta.movieName
        let res := cleanupLoop clearFails deleteFails rest db2
        (res.1, res.2 + 1)

/-- `cleanupOldMovieData` (src/database.js lines 587–625): compute
`cutoffDays = nowDays - maxAgeDays`, list all metadata, keep those with
`lastAccessedDays < cutoffDays`, and for each delete its subtitles and then
its metadata record, counting fully-cleaned movies and continuing past
per-movie failures. -/
def cleanupOldMovieData (db : CacheDatabase) (nowDays maxAgeDays : Int)
    (clearFails deleteFails : String → Bool) : CacheDatabase × Nat :=
  let cutoffDays := nowDays - maxAgeDays
  let oldMovieMetadatas := db.metadata.filter (isOldMetadata cutoffDays)
  cleanupLoop clearFails deleteFails oldMovieMetadatas db

/-- Whether processing the work list `ms` clears the subtitles of `name`. -/
def clearsName (cf : String → Bool) (ms : List MovieMetadata) (name : String) : Bool :=
  ms.any (fun m => m.movieName == name && !cf m.movieName)

/-- Whether processing the work list `ms` deletes the metadata of `name`. -/
def deletesName (cf df : String → Bool) (ms : List MovieMetadata) (name : String) : Bool :=
  ms.any (fun m => m.movieName == name && !cf m.movieName && !df m.movieName)

theorem decide_ne_eq_not_beq (a b : String) : (decide (a ≠ b)) = !(b == a) := by
  by_cases h : a = b
  · subst h; simp
  · have h2 : ¬ b = a := fun he => h he.symm
    simp [h, h2]

theorem clearsName_cons_not_cf {cf : String → Bool} {meta : MovieMetadata}
    (rest : List MovieMetadata) (name : String) (hcf : cf meta.movieName = false) :
    clearsName cf (meta :: rest) name =
      ((meta.movieName == name) || clearsName cf rest name) := by
  simp [clearsName, hcf]

theorem cleanupLoop_subtitles (cf df : String → Bool) :
    ∀ (ms : List MovieMetadata) (db : CacheDatabase),
      (cleanupLoop cf df ms db).1.subtitles =
        db.subtitles.filter (fun r => !clearsName cf ms r.movieName) := by
  intro ms
  induction ms with
  | nil =>
    intro db
    show db.subtitles = _
    simp [clearsName]
  | cons meta rest ih =>
    intro db
    rw [cleanupLoop]
    cases hcf : cf meta.movieName with
    | true =>
      rw [if_pos rfl, ih db]
      apply List.filter_congr
      intro r _
      simp [clearsName, hcf]
    | false =>
      rw [if_neg (by simp)]
      have hkey : (clearSubtitlesByMovieName db meta.movieName).subtitles.filter
            (fun r => !clearsName cf rest r.movieName) =
          db.subtitles.filter (fun r => !clearsName cf (meta :: rest) r.movieName) := by
        show (db.subtitles.filter fun r => decide (r.movieName ≠ meta.movieName)).filter
            (fun r => !clearsName cf rest r.movieName) = _
        rw [List.filter_filter]
        apply List.filter_congr
        intro r _
        rw [clearsName_cons_not_cf rest r.movieName hcf, Bool.not_or, Bool.and_comm]
        congr 1
        exact decide_ne_eq_not_beq r.movieName meta.movieName
      cases hdf : df meta.movieName with
      | true => rw [if_pos rfl, ih _, hkey]
      | false =>
        rw [if_neg (by simp)]
        show (cleanupLoop cf df rest (deleteMovieMetadata
          (clearSubtitlesByMovieName db meta.movieName) meta.movieName)).1.subtitles = _
        rw [ih _]
        exact hkey

theorem cleanupLoop_metadata (cf df : String → Bool) :
    ∀ (ms : List MovieMetadata) (db : CacheDatabase),
      (cleanupLoop cf df ms db).1.metadata =
        db.metadata.filter (fun x => !deletesName cf df ms x.movieName) := by
  intro ms
  induction ms with
  | nil =>
    intro db
    show db.metadata = _
    simp [deletesName]
  | cons meta rest ih =>
    intro db
    rw [cleanupLoop]
    cases hcf : cf meta.movieName with
    | true =>
      rw [if_pos rfl, ih db]
      apply List.filter_congr
      intro x _
      simp [deletesName, hcf]
    | false =>
      rw [if_neg (by simp)]
      cases hdf : df meta.movieName with
      | true =>
        rw [if_pos rfl, ih _]
        show db.metadata.filter _ = _
        apply List.filter_congr
        intro x _
        simp [deletesName, hcf, hdf]
      | false =>
        rw [if_neg (by simp)]
        show (cleanupLoop cf df rest (deleteMovieMetadata
          (clearSubtitlesByMovieName db meta.movieName) meta.movieName)).1.metadata = _
        rw [ih _]
        show (db.metadata.filter fun x => decide (x.movieName ≠ meta.movieName)).filter
            (fun x => !deletesName cf df rest x.movieName) = _
        rw [List.filter_filter]
        apply List.filter_congr
        intro x _
        have hd : deletesName cf df (meta :: rest) x.movieName =
            ((meta.movieName == x.movieName) || deletesName cf df rest x.movieName) := by
          simp [deletesName, hcf, hdf]
        rw [hd, Bool.not_or, Bool.and_comm]
        congr 1
        exact decide_ne_eq_not_beq x.movieName meta.movieName

theorem cleanupLoop_count (cf df : String → Bool) :
    ∀ (ms : List MovieMetadata) (db : CacheDatabase),
      (cleanupLoop cf df ms db).2 =
        (ms.filter (fun m => !cf m.movieName && !df m.movieName)).length := by
  intro ms
  induction ms with
  | nil => intro db; rfl
  | cons meta rest ih =>
    intro db
    rw [cleanupLoop]
    cases hcf : cf meta.movieName with
    | true =>
      rw [if_pos rfl]
      rw [ih db]
      simp [List.filter_cons, hcf]
    | false =>
      rw [if_neg (by simp)]
      cases hdf : df meta.movieName with
      | true =>
        rw [if_pos rfl, ih _]
        simp [List.filter_cons, hcf, hdf]
      | false =>
        rw [if_neg (by simp)]
        show (cleanupLoop cf df rest _).2 + 1 = _
        rw [ih _]
        simp [List.filter_cons, hcf, hdf]

/-- **C6** (confirmed). Eviction correctness of the sweep, with
`cutoffDays = nowDays - maxAgeDays` and per-movie failure oracles
(`cf`/`df` for the subtitle-clearing resp. metadata-deletion step;
`fun _ => false` is the failure-free run).  Assuming the schema invariant
of one metadata record per movie name: the sweep (i) keeps exactly the
subtitle records of movies that are not both old and successfully cleared,
(ii) keeps exactly the metadata records that are not old-and-fully-evicted,
and (iii) returns the number of old movies whose two deletion steps both
succeeded.  A failing movie is skipped and the sweep continues with the
rest; with no failures this evicts the units and metadata of exactly the
movies with `lastAccessedDays < cutoffDays` and returns their count. -/
theorem cleanupOldMovieData_spec (db : CacheDatabase) (nowDays maxAgeDays : Int)
    (cf df : String → Bool)
    (hnodup : (db.metadata.map (fun m => m.movieName)).Nodup) :
    (cleanupOldMovieData db nowDays maxAgeDays cf df).1.subtitles =
      db.subtitles.filter (fun r =>
        !(db.metadata.any (fun m => isOldMetadata (nowDays - maxAgeDays) m &&
          ((m.movieName == r.movieName) && !cf m.movieName)))) ∧
    (cleanupOldMovieData db nowDays maxAgeDays cf df).1.metadata =
      db.metadata.filter (fun m =>
        !(isOldMetadata (nowDays - maxAgeDays) m && !cf m.movieName && !df m.movieName)) ∧
    (cleanupOldMovieData db nowDays maxAgeDays cf df).2 =
      (db.metadata.filter (fun m => isOldMetadata (nowDays - maxAgeDays) m &&
        !cf m.movieName && !df m.movieName)).length := by
  refine ⟨?_, ?_, ?_⟩
  · rw [cleanupOldMovieData]
    rw [cleanupLoop_subtitles]
    apply List.filter_congr
    intro r _
    rw [clearsName, List.any_filter]
  · rw [cleanupOldMovieData]
    rw [cleanupLoop_metadata]
    apply List.filter_congr
    intro x hx
    have hdel : deletesName cf df
        (db.metadata.filter (isOldMetadata (nowDays - maxAgeDays))) x.movieName =
        (isOldMetadata (nowDays - maxAgeDays) x && !cf x.movieName && !df x.movieName) := by
      rw [deletesName, List.any_filter]
      rcases hb : (isOldMetadata (nowDays - maxAgeDays) x &&
          !cf x.movieName && !df x.movieName) with _ | _
      · rw [Bool.eq_false_iff]
        intro hany
        obtain ⟨m, hm, hconj⟩ := List.any_eq_true.mp hany
        have h1 := Bool.and_elim_left hconj
        have h2 := Bool.and_elim_right hconj
        have hname : m.movieName = x.movieName :=
          eq_of_beq (Bool.and_elim_left (Bool.and_elim_left h2))
        have hmx : m = x :=
          List.inj_on_of_nodup_map hnodup hm hx hname
        rw [hmx] at h1 h2
        rw [Bool.eq_false_iff] at hb
        apply hb
        rw [h1]
        rw [Bool.and_elim_right (Bool.and_elim_left h2), Bool.and_elim_right h2]
        rfl
      · apply List.any_eq_true.mpr
        refine ⟨x, hx, ?_⟩
        rw [Bool.and_elim_left (Bool.and_elim_left hb)]
        rw [Bool.and_elim_right (Bool.and_elim_left hb)]
        rw [Bool.and_elim_right hb]
        simp
    rw [hdel]
  · rw [cleanupOldMovieData]
    rw [cleanupLoop_count]
    rw [List.filter_filter]
    congr 1
    apply List.filter_congr
    intro m _
    simp [Bool.and_comm, Bool.and_left_comm, Bool.and_assoc]

theorem cleanupOldMovieData_spec_witness :
    (cleanupOldMovieData
        ⟨[⟨"A", "FI", "EN-US", "hei", "hi"⟩, ⟨"B", "FI", "EN-US", "moi", "hello"⟩],
          [⟨"A", 19960⟩, ⟨"B", 19990⟩]⟩
        20000 30 (fun _ => false) (fun _ => false)).1.subtitles =
      [⟨"B", "FI", "EN-US", "moi", "hello"⟩] ∧
    (cleanupOldMovieData
        ⟨[⟨"A", "FI", "EN-US", "hei", "hi"⟩, ⟨"B", "FI", "EN-US", "moi", "hello"⟩],
          [⟨"A", 19960⟩, ⟨"B", 19990⟩]⟩
        20000 30 (fun _ => false) (fun _ => false)).1.metadata = [⟨"B", 19990⟩] ∧
    (cleanupOldMovieData
        ⟨[⟨"A", "FI", "EN-US", "hei", "hi"⟩, ⟨"B", "FI", "EN-US", "moi", "hello"⟩],
          [⟨"A", 19960⟩, ⟨"B", 19990⟩]⟩
        20000 30 (fun _ => false) (fun _ => false)).2 = 1 :=
  cleanupOldMovieData_spec
    ⟨[⟨"A", "FI", "EN-US", "hei", "hi"⟩, ⟨"B", "FI", "EN-US", "moi", "hello"⟩],
      [⟨"A", 19960⟩, ⟨"B", 19990⟩]⟩
    20000 30 (fun _ => false) (fun _ => false) (by decide)

end YleDualSub
